import Mathlib

/-!
Verification development for `audio_scanner.py`: a shallow embedding of the
scanner's decision logic (`scan_directory`, the tag accessors and the CLI
dispatch in `main`) together with theorems about the program's modes.

Modelling conventions:
* Files and directories are identified by natural numbers.  An `Entry` models
  one filesystem enumeration result (`fid`, `is_file()`, `suffix`, parent
  directory).
* A `World` packages the environment the Python code interacts with: the
  `root_path.rglob('*')` enumeration order, `parent_dir.iterdir()` listings,
  `parent_dir.name`, and per-file outcomes of tag I/O (whether reading the
  Album Artist raises, and whether each kind of save succeeds).
* `Tags` maps a file id to the Album Artist value that `get_album_artist`
  would extract from its on-disk tags (`none` when no such field exists).
* Printed stdout lines are modelled structurally (`OutLine`), each tagged with
  the directory it reports; `OutLine.render` yields the literal printed text.
* Invocations of `set_album_artist` / `set_release_type` are recorded in
  traces (`AAWrite` / `RTWrite`), each carrying the directory being processed,
  the file, the value passed, and whether the save succeeded.
-/

namespace AudioScanner

/-- One filesystem enumeration entry: file id, `is_file()`, the path suffix
(extension, as Python's `Path.suffix`), and the id of the parent directory. -/
structure Entry where
  fid : Nat
  isFile : Bool
  suffix : String
  parent : Nat
deriving DecidableEq

/-- The environment of one run: enumeration order of `root_path.rglob('*')`,
per-directory `iterdir()` listings, directory names, and the outcome of each
per-file tag I/O operation (read raises; album-artist save succeeds;
release-type save succeeds). -/
structure World where
  rglob : List Entry
  iterdir : Nat → List Entry
  dirName : Nat → String
  readRaises : Nat → Bool
  writeAAOk : Nat → Bool
  writeRTOk : Nat → Bool

/-- On-disk tag assignment: file id to the Album Artist (or Release Type)
value extractable from the file, `none` when absent. -/
abbrev Tags := Nat → Option String

/-- The audio extension set from `is_audio_file`. -/
def audio_extensions : List String :=
  [".mp3", ".flac", ".m4a", ".mp4", ".ogg", ".wav", ".wma", ".aac"]

/-- Character-wise lower-casing, i.e. `str.lower()` as applied to path
suffixes (written via the character list so that it evaluates by kernel
reduction). -/
def lowerStr (s : String) : String := ⟨s.data.map Char.toLower⟩

/-- `is_audio_file`: membership of the lower-cased suffix in the extension
set. -/
def is_audio_file (suffix : String) : Bool :=
  audio_extensions.contains (lowerStr suffix)

/-- Python truthiness of a string: `False` exactly for the empty string. -/
def truthyS (s : String) : Bool := !s.isEmpty

/-- Python truthiness of an optional string (`None` and `""` are falsy). -/
def truthyO : Option String → Bool
  | none => false
  | some s => truthyS s

/-- The update-mode missing test `album_artist is None or
album_artist.strip() == ""`: a stripped string is empty exactly when every
character is whitespace. -/
def blankO : Option String → Bool
  | none => true
  | some s => s.data.all Char.isWhitespace

/-- The value printed by scan mode: `album_artist if album_artist else
"(not set)"`. -/
def displayVal : Option String → String
  | none => "(not set)"
  | some s => if truthyS s then s else "(not set)"

/-- A stdout report line, tagged with the directory it is about; `render`
recovers the literal text printed. -/
inductive OutLine where
  | scan (dir : Nat) (dname : String) (value : String)
  | updated (dir : Nat) (dname : String)
  | forceUpdated (dir : Nat) (dname : String)
  | rtUpdated (dir : Nat) (dname : String)
deriving DecidableEq

/-- The directory a report line is about. -/
def OutLine.dir : OutLine → Nat
  | .scan d _ _ => d
  | .updated d _ => d
  | .forceUpdated d _ => d
  | .rtUpdated d _ => d

/-- The literal text of a report line, as printed by the Python code. -/
def OutLine.render : OutLine → String
  | .scan _ n v => n ++ " - " ++ v
  | .updated _ n => "Updated: " ++ n
  | .forceUpdated _ n => "Force Updated: " ++ n
  | .rtUpdated _ n => "Release Type Updated: " ++ n

/-- The value surfaced by a scan-mode line, if any. -/
def OutLine.scanValue : OutLine → Option String
  | .scan _ _ v => some v
  | _ => none

/-- Record of one `set_album_artist(file, value)` invocation: the directory
being processed, the file, the value, and whether the save succeeded. -/
structure AAWrite where
  dir : Nat
  fid : Nat
  value : String
  ok : Bool
deriving DecidableEq

/-- Record of one `set_release_type(file, value)` invocation. -/
structure RTWrite where
  dir : Nat
  fid : Nat
  value : Option String
  ok : Bool
deriving DecidableEq

/-- Run state of `scan_directory`: the evolving on-disk tags, the stdout
lines so far, `processed_dirs`, `updated_dirs`, and the invocation traces. -/
structure St where
  albumArtist : Tags
  releaseType : Tags
  out : List OutLine
  processed : List Nat
  updated_dirs : List Nat
  aaWrites : List AAWrite
  rtWrites : List RTWrite

/-- `get_album_artist` as used by `scan_directory`: `none` when the read
raises (the exception handler returns `None`), otherwise the tag value. -/
def read_album_artist (w : World) (t : Tags) (f : Nat) : Option String :=
  if w.readRaises f then none else t f

/-- `set_album_artist(file, value)` from directory `d`: records the
invocation; on a successful save the file's Album Artist becomes `value`. -/
def set_album_artist (w : World) (d : Nat) (s : St) (f : Nat) (v : String) :
    Bool × St :=
  let ok := w.writeAAOk f
  let s1 : St := { s with aaWrites := s.aaWrites ++ [⟨d, f, v, ok⟩] }
  if ok then
    (true, { s1 with albumArtist := fun g => if g = f then some v else s1.albumArtist g })
  else
    (false, s1)

/-- `set_release_type(file, value)` from directory `d`. -/
def set_release_type (w : World) (d : Nat) (s : St) (f : Nat) (v : Option String) :
    Bool × St :=
  let ok := w.writeRTOk f
  let s1 : St := { s with rtWrites := s.rtWrites ++ [⟨d, f, v, ok⟩] }
  if ok then
    (true, { s1 with releaseType := fun g => if g = f then v else s1.releaseType g })
  else
    (false, s1)

/-- `dir_files`: the audio files of a directory, per
`[f for f in parent_dir.iterdir() if f.is_file() and is_audio_file(f)]`. -/
def dirFiles (w : World) (d : Nat) : List Entry :=
  (w.iterdir d).filter (fun e => e.isFile && is_audio_file e.suffix)

/-- One iteration of the release-type-only per-file loop; the Bool is
`updated_any`. -/
def rtLoopStep (w : World) (rt : Option String) (d : Nat)
    (acc : Bool × St) (e : Entry) : Bool × St :=
  let r := set_release_type w d acc.2 e.fid rt
  (acc.1 || r.1, r.2)

/-- One iteration of the force-mode per-file loop: write the Album Artist,
then also the release type when `release_type` is truthy; `success` is the
disjunction of the two outcomes. -/
def forceLoopStep (w : World) (fv : String) (rt : Option String) (d : Nat)
    (acc : Bool × St) (e : Entry) : Bool × St :=
  let r1 := set_album_artist w d acc.2 e.fid fv
  let r2 := if truthyO rt then set_release_type w d r1.2 e.fid rt else (false, r1.2)
  (acc.1 || (r1.1 || r2.1), r2.2)

/-- One iteration of the update-mode second loop: re-read the Album Artist
and write `"Various Artists"` only when it is missing or blank. -/
def updateLoopStep (w : World) (d : Nat) (acc : Bool × St) (e : Entry) :
    Bool × St :=
  let aa := read_album_artist w acc.2.albumArtist e.fid
  if blankO aa then
    let r := set_album_artist w d acc.2 e.fid "Various Artists"
    (acc.1 || r.1, r.2)
  else
    acc

/-- The release-type-only block of `scan_directory` for one new directory. -/
def rtOnlyBlock (w : World) (rt : Option String) (d : Nat) (s : St) : St :=
  let r := (dirFiles w d).foldl (rtLoopStep w rt d) (false, s)
  if r.1 then
    { r.2 with out := r.2.out ++ [.rtUpdated d (w.dirName d)],
               updated_dirs := d :: r.2.updated_dirs }
  else
    r.2

/-- The force-mode block of `scan_directory` for one new directory. -/
def forceBlock (w : World) (fv : String) (rt : Option String) (d : Nat) (s : St) : St :=
  let r := (dirFiles w d).foldl (forceLoopStep w fv rt d) (false, s)
  if r.1 then
    { r.2 with out := r.2.out ++ [.forceUpdated d (w.dirName d)],
               updated_dirs := d :: r.2.updated_dirs }
  else
    r.2

/-- The update-mode block of `scan_directory` for one new directory: first
decide `needs_update` by scanning for a missing/blank Album Artist, then
rewrite exactly the missing/blank files. -/
def updateBlock (w : World) (d : Nat) (s : St) : St :=
  let needs_update :=
    (dirFiles w d).any (fun e => blankO (read_album_artist w s.albumArtist e.fid))
  if needs_update then
    let r := (dirFiles w d).foldl (updateLoopStep w d) (false, s)
    if r.1 then
      { r.2 with out := r.2.out ++ [.updated d (w.dirName d)],
                 updated_dirs := d :: r.2.updated_dirs }
    else
      r.2
  else
    s

/-- The mode arguments of `scan_directory`. -/
structure ScanArgs where
  update_mode : Bool
  force_mode : Bool
  force_value : String
  release_type : Option String
  release_type_only : Bool
deriving DecidableEq

/-- One iteration of the `rglob` loop of `scan_directory`. -/
def scanStep (w : World) (a : ScanArgs) (s : St) (e : Entry) : St :=
  if !e.isFile || !is_audio_file e.suffix then s
  else
    let d := e.parent
    if a.update_mode || a.force_mode || a.release_type_only then
      if d ∈ s.processed then s
      else
        let s1 :=
          if a.release_type_only then rtOnlyBlock w a.release_type d s
          else if a.force_mode then forceBlock w a.force_value a.release_type d s
          else if a.update_mode then updateBlock w d s
          else s
        { s1 with processed := d :: s1.processed }
    else
      if d ∈ s.processed then s
      else
        let aa := read_album_artist w s.albumArtist e.fid
        if aa ≠ some "Various Artists" then
          { s with out := s.out ++ [.scan d (w.dirName d) (displayVal aa)],
                   processed := d :: s.processed }
        else
          s

/-- The initial run state. -/
def initSt (aa rt : Tags) : St :=
  { albumArtist := aa, releaseType := rt, out := [], processed := [],
    updated_dirs := [], aaWrites := [], rtWrites := [] }

/-- `scan_directory(root, ...)` as a fold of the per-entry step over the
`rglob` enumeration, starting from on-disk tags `aa0` / `rt0`. -/
def scan_directory (w : World) (aa0 rt0 : Tags) (a : ScanArgs) : St :=
  w.rglob.foldl (scanStep w a) (initSt aa0 rt0)

/-- The command-line arguments relevant to mode dispatch in `main`:
`args.update`, `args.force` (`none` when the flag is absent, the constant
`"Various Artists"` for a bare `--force`), and `args.release_type`. -/
structure Args where
  update : Bool
  force : Option String
  release_type : Option String
deriving DecidableEq

/-- The dispatch logic of `main`: `force_value` defaults to
`"Various Artists"` and is replaced only when `args.force` is truthy;
`force_mode` is `bool(args.force)`; release-type-only mode is entered when
`args.force` is falsy and `args.release_type` truthy. -/
def mainDispatch (ar : Args) : ScanArgs :=
  let ft := truthyO ar.force
  { update_mode := ar.update
    force_mode := ft
    force_value := if ft then ar.force.getD "" else "Various Artists"
    release_type := ar.release_type
    release_type_only := !ft && truthyO ar.release_type }

/-- The result of `mutagen.File(path)` as observed by `get_album_artist`:
an exception, `None`, or a tag container with the three probed fields
(each already normalized to the string the Python code would extract). -/
inductive FileOpenResult where
  | raises (msg : String)
  | noFile
  | tags (tpe2 albumartist aart : Option String)
deriving DecidableEq

/-- The field-probing chain of `get_album_artist`: a falsy `TPE2` result is
overwritten by the `ALBUMARTIST` lookup, and a falsy result of that by the
`aART` lookup. -/
def tagChain (tpe2 albumartist aart : Option String) : Option String :=
  let a1 := tpe2
  let a2 := if truthyO a1 then a1 else albumartist
  if truthyO a2 then a2 else aart

/-- `get_album_artist(file_path)` over the opened-file outcome: returns the
extracted value together with the stderr lines it prints.  The exception
branch is the `except` handler of the source. -/
def get_album_artist (path : String) (r : FileOpenResult) :
    Option String × List String :=
  match r with
  | .raises msg => (none, ["Error reading " ++ path ++ ": " ++ msg])
  | .noFile => (none, [])
  | .tags t a aa => (tagChain t a aa, [])

/-- The scan-mode hit predicate: an enumerated audio file of directory `d`
whose Album Artist read differs from `"Various Artists"`. -/
def scanHitP (w : World) (t : Tags) (d : Nat) (e : Entry) : Bool :=
  e.isFile && is_audio_file e.suffix && (e.parent == d)
    && !(read_album_artist w t e.fid == some "Various Artists")

/-- The enumerated audio files of directory `d` whose Album Artist read
differs from `"Various Artists"`, in enumeration order. -/
def scanHits (w : World) (t : Tags) (d : Nat) (l : List Entry) : List Entry :=
  l.filter (scanHitP w t d)

/-- Well-formedness of the modelled filesystem: directory listings repeat no
file, and a file id occurs in the listing of at most one directory. -/
def World.WF (w : World) : Prop :=
  (∀ d, ((w.iterdir d).map Entry.fid).Nodup) ∧
  (∀ d d' e e', e ∈ w.iterdir d → e' ∈ w.iterdir d' → e.fid = e'.fid → d = d')

/-! ### Component lemmas for the tag writers -/

@[simp]
theorem set_album_artist_fst (w : World) (d : Nat) (s : St) (f : Nat) (v : String) :
    (set_album_artist w d s f v).1 = w.writeAAOk f := by
  unfold set_album_artist
  by_cases h : w.writeAAOk f <;> simp [h]

@[simp]
theorem set_album_artist_aaWrites (w : World) (d : Nat) (s : St) (f : Nat) (v : String) :
    (set_album_artist w d s f v).2.aaWrites
      = s.aaWrites ++ [⟨d, f, v, w.writeAAOk f⟩] := by
  unfold set_album_artist
  by_cases h : w.writeAAOk f <;> simp [h]

@[simp]
theorem set_album_artist_rtWrites (w : World) (d : Nat) (s : St) (f : Nat) (v : String) :
    (set_album_artist w d s f v).2.rtWrites = s.rtWrites := by
  unfold set_album_artist
  by_cases h : w.writeAAOk f <;> simp [h]

@[simp]
theorem set_album_artist_out (w : World) (d : Nat) (s : St) (f : Nat) (v : String) :
    (set_album_artist w d s f v).2.out = s.out := by
  unfold set_album_artist
  by_cases h : w.writeAAOk f <;> simp [h]

@[simp]
theorem set_album_artist_processed (w : World) (d : Nat) (s : St) (f : Nat) (v : String) :
    (set_album_artist w d s f v).2.processed = s.processed := by
  unfold set_album_artist
  by_cases h : w.writeAAOk f <;> simp [h]

@[simp]
theorem set_album_artist_releaseType (w : World) (d : Nat) (s : St) (f : Nat) (v : String) :
    (set_album_artist w d s f v).2.releaseType = s.releaseType := by
  unfold set_album_artist
  by_cases h : w.writeAAOk f <;> simp [h]

theorem set_album_artist_albumArtist_apply (w : World) (d : Nat) (s : St)
    (f : Nat) (v : String) (g : Nat) :
    (set_album_artist w d s f v).2.albumArtist g
      = if w.writeAAOk f = true ∧ g = f then some v else s.albumArtist g := by
  unfold set_album_artist
  by_cases h : w.writeAAOk f <;> by_cases hg : g = f <;> simp [h, hg]

@[simp]
theorem set_release_type_fst (w : World) (d : Nat) (s : St) (f : Nat) (v : Option String) :
    (set_release_type w d s f v).1 = w.writeRTOk f := by
  unfold set_release_type
  by_cases h : w.writeRTOk f <;> simp [h]

@[simp]
theorem set_release_type_rtWrites (w : World) (d : Nat) (s : St) (f : Nat) (v : Option String) :
    (set_release_type w d s f v).2.rtWrites
      = s.rtWrites ++ [⟨d, f, v, w.writeRTOk f⟩] := by
  unfold set_release_type
  by_cases h : w.writeRTOk f <;> simp [h]

@[simp]
theorem set_release_type_aaWrites (w : World) (d : Nat) (s : St) (f : Nat) (v : Option String) :
    (set_release_type w d s f v).2.aaWrites = s.aaWrites := by
  unfold set_release_type
  by_cases h : w.writeRTOk f <;> simp [h]

@[simp]
theorem set_release_type_albumArtist (w : World) (d : Nat) (s : St) (f : Nat) (v : Option String) :
    (set_release_type w d s f v).2.albumArtist = s.albumArtist := by
  unfold set_release_type
  by_cases h : w.writeRTOk f <;> simp [h]

@[simp]
theorem set_release_type_out (w : World) (d : Nat) (s : St) (f : Nat) (v : Option String) :
    (set_release_type w d s f v).2.out = s.out := by
  unfold set_release_type
  by_cases h : w.writeRTOk f <;> simp [h]

@[simp]
theorem set_release_type_processed (w : World) (d : Nat) (s : St) (f : Nat) (v : Option String) :
    (set_release_type w d s f v).2.processed = s.processed := by
  unfold set_release_type
  by_cases h : w.writeRTOk f <;> simp [h]

/-! ### Characterizations of the per-directory loops -/

/-- The release-type records appended when the per-file loop runs over `l`. -/
def rtRecs (w : World) (rt : Option String) (d : Nat) (l : List Entry) : List RTWrite :=
  l.map (fun e => ⟨d, e.fid, rt, w.writeRTOk e.fid⟩)

/-- The album-artist records appended by the force-mode loop over `l`. -/
def aaRecsF (w : World) (fv : String) (d : Nat) (l : List Entry) : List AAWrite :=
  l.map (fun e => ⟨d, e.fid, fv, w.writeAAOk e.fid⟩)

theorem rtLoop_spec (w : World) (rt : Option String) (d : Nat) (l : List Entry) :
    ∀ (b : Bool) (s : St),
      (l.foldl (rtLoopStep w rt d) (b, s)).2.albumArtist = s.albumArtist ∧
      (l.foldl (rtLoopStep w rt d) (b, s)).2.aaWrites = s.aaWrites ∧
      (l.foldl (rtLoopStep w rt d) (b, s)).2.out = s.out ∧
      (l.foldl (rtLoopStep w rt d) (b, s)).2.processed = s.processed ∧
      (l.foldl (rtLoopStep w rt d) (b, s)).2.rtWrites = s.rtWrites ++ rtRecs w rt d l ∧
      (l.foldl (rtLoopStep w rt d) (b, s)).1
        = (b || l.any (fun e => w.writeRTOk e.fid)) := by
  induction l with
  | nil => intro b s; simp [rtRecs]
  | cons e l ih =>
    intro b s
    have hstep : rtLoopStep w rt d (b, s) e
        = (b || w.writeRTOk e.fid, (set_release_type w d s e.fid rt).2) := by
      simp [rtLoopStep]
    obtain ⟨h1, h2, h3, h4, h5, h6⟩ :=
      ih (b || w.writeRTOk e.fid) (set_release_type w d s e.fid rt).2
    refine ⟨?_, ?_, ?_, ?_, ?_, ?_⟩ <;>
      simp [List.foldl_cons, hstep, h1, h2, h3, h4, h5, h6, rtRecs, Bool.or_assoc]

theorem forceLoop_spec (w : World) (fv : String) (rt : Option String) (d : Nat)
    (l : List Entry) :
    ∀ (b : Bool) (s : St),
      (l.foldl (forceLoopStep w fv rt d) (b, s)).2.aaWrites
        = s.aaWrites ++ aaRecsF w fv d l ∧
      (l.foldl (forceLoopStep w fv rt d) (b, s)).2.rtWrites
        = s.rtWrites ++ (if truthyO rt then rtRecs w rt d l else []) ∧
      (l.foldl (forceLoopStep w fv rt d) (b, s)).2.out = s.out ∧
      (l.foldl (forceLoopStep w fv rt d) (b, s)).2.processed = s.processed ∧
      (l.foldl (forceLoopStep w fv rt d) (b, s)).1
        = (b || l.any (fun e =>
            w.writeAAOk e.fid || (truthyO rt && w.writeRTOk e.fid))) := by
  induction l with
  | nil => intro b s; simp [aaRecsF, rtRecs]
  | cons e l ih =>
    intro b s
    by_cases hrt : truthyO rt
    · have hstep : forceLoopStep w fv rt d (b, s) e
          = (b || (w.writeAAOk e.fid || w.writeRTOk e.fid),
             (set_release_type w d (set_album_artist w d s e.fid fv).2 e.fid rt).2) := by
        simp [forceLoopStep, hrt]
      obtain ⟨h1, h2, h3, h4, h5⟩ :=
        ih (b || (w.writeAAOk e.fid || w.writeRTOk e.fid))
          (set_release_type w d (set_album_artist w d s e.fid fv).2 e.fid rt).2
      refine ⟨?_, ?_, ?_, ?_, ?_⟩ <;>
        simp [List.foldl_cons, hstep, h1, h2, h3, h4, h5, aaRecsF, rtRecs, hrt,
          Bool.or_assoc]
    · have hstep : forceLoopStep w fv rt d (b, s) e
          = (b || w.writeAAOk e.fid, (set_album_artist w d s e.fid fv).2) := by
        simp [forceLoopStep, hrt]
      obtain ⟨h1, h2, h3, h4, h5⟩ :=
        ih (b || w.writeAAOk e.fid) (set_album_artist w d s e.fid fv).2
      refine ⟨?_, ?_, ?_, ?_, ?_⟩ <;>
        simp [List.foldl_cons, hstep, h1, h2, h3, h4, h5, aaRecsF, rtRecs, hrt,
          Bool.or_assoc]

theorem updateLoop_shape (w : World) (d : Nat) (l : List Entry) :
    ∀ (b : Bool) (s : St), ∃ recs : List AAWrite,
      (l.foldl (updateLoopStep w d) (b, s)).2.aaWrites = s.aaWrites ++ recs ∧
      List.Sublist (recs.map AAWrite.fid) (l.map Entry.fid) ∧
      (∀ x ∈ recs, x.dir = d ∧ x.value = "Various Artists") ∧
      (l.foldl (updateLoopStep w d) (b, s)).2.out = s.out ∧
      (l.foldl (updateLoopStep w d) (b, s)).2.processed = s.processed ∧
      (l.foldl (updateLoopStep w d) (b, s)).2.rtWrites = s.rtWrites ∧
      ((l.foldl (updateLoopStep w d) (b, s)).1 = true →
        b = true ∨ ∃ x ∈ recs, x.ok = true) := by
  induction l with
  | nil =>
    intro b s
    exact ⟨[], by simp⟩
  | cons e l ih =>
    intro b s
    by_cases hb : blankO (read_album_artist w s.albumArtist e.fid)
    · have hstep : updateLoopStep w d (b, s) e
          = (b || w.writeAAOk e.fid,
             (set_album_artist w d s e.fid "Various Artists").2) := by
        simp [updateLoopStep, hb]
      obtain ⟨recs, h1, h2, h3, h4, h5, h6, h7⟩ :=
        ih (b || w.writeAAOk e.fid)
          (set_album_artist w d s e.fid "Various Artists").2
      refine ⟨⟨d, e.fid, "Various Artists", w.writeAAOk e.fid⟩ :: recs,
        ?_, ?_, ?_, ?_, ?_, ?_, ?_⟩
      · simp [List.foldl_cons, hstep, h1]
      · simpa using List.Sublist.cons₂ e.fid h2
      · intro x hx
        rcases List.mem_cons.mp hx with hx | hx
        · subst hx; exact ⟨rfl, rfl⟩
        · exact h3 x hx
      · simp [List.foldl_cons, hstep, h4]
      · simp [List.foldl_cons, hstep, h5]
      · simp [List.foldl_cons, hstep, h6]
      · intro hfst
        rw [List.foldl_cons, hstep] at hfst
        rcases h7 hfst with hor | ⟨x, hx, hok⟩
        · rcases Bool.or_eq_true_iff.mp hor with hbb | hok
          · exact Or.inl hbb
          · exact Or.inr ⟨_, List.mem_cons_self _ _, hok⟩
        · exact Or.inr ⟨x, List.mem_cons_of_mem _ hx, hok⟩
    · have hstep : updateLoopStep w d (b, s) e = (b, s) := by
        simp [updateLoopStep, hb]
      obtain ⟨recs, h1, h2, h3, h4, h5, h6, h7⟩ := ih b s
      exact ⟨recs, by simp [List.foldl_cons, hstep, h1],
        h2.trans (List.sublist_cons_self _ _), h3,
        by simp [List.foldl_cons, hstep, h4],
        by simp [List.foldl_cons, hstep, h5],
        by simp [List.foldl_cons, hstep, h6],
        by rw [List.foldl_cons, hstep]; exact h7⟩

/-- The update-mode run invariant: every `set_album_artist` invocation so far
passed `"Various Artists"` and hit a file whose initial Album Artist read was
missing or blank, and the on-disk Album Artist of a file differs from its
initial value only by having become `"Various Artists"` on such a file. -/
def UpdInv (w : World) (t0 : Tags) (s : St) : Prop :=
  (∀ x ∈ s.aaWrites, x.value = "Various Artists" ∧
    blankO (read_album_artist w t0 x.fid) = true) ∧
  (∀ f, s.albumArtist f = t0 f ∨
    (s.albumArtist f = some "Various Artists" ∧
      blankO (read_album_artist w t0 f) = true))

theorem blank_lift (w : World) (t0 : Tags) (s : St) (hinv : UpdInv w t0 s)
    (f : Nat) (hb : blankO (read_album_artist w s.albumArtist f) = true) :
    blankO (read_album_artist w t0 f) = true := by
  unfold read_album_artist at *
  by_cases hr : w.readRaises f
  · simp [hr, blankO]
  · simp only [hr, if_neg, Bool.false_eq_true, if_false] at *
    rcases hinv.2 f with heq | ⟨hva, hblank⟩
    · rw [heq] at hb; exact hb
    · rw [hva] at hb
      exact absurd hb (by decide)

theorem updateLoop_UpdInv (w : World) (t0 : Tags) (d : Nat) (l : List Entry) :
    ∀ (b : Bool) (s : St), UpdInv w t0 s →
      UpdInv w t0 (l.foldl (updateLoopStep w d) (b, s)).2 := by
  induction l with
  | nil => intro b s h; simpa using h
  | cons e l ih =>
    intro b s hinv
    by_cases hb : blankO (read_album_artist w s.albumArtist e.fid)
    · have hstep : updateLoopStep w d (b, s) e
          = (b || w.writeAAOk e.fid,
             (set_album_artist w d s e.fid "Various Artists").2) := by
        simp [updateLoopStep, hb]
      rw [List.foldl_cons, hstep]
      apply ih
      constructor
      · intro x hx
        rw [set_album_artist_aaWrites] at hx
        rcases List.mem_append.mp hx with hx | hx
        · exact hinv.1 x hx
        · have : x = ⟨d, e.fid, "Various Artists", w.writeAAOk e.fid⟩ := by
            simpa using hx
          subst this
          exact ⟨rfl, blank_lift w t0 s hinv e.fid hb⟩
      · intro f
        rw [set_album_artist_albumArtist_apply]
        by_cases hc : w.writeAAOk e.fid = true ∧ f = e.fid
        · rw [if_pos hc]
          exact Or.inr ⟨rfl, hc.2 ▸ blank_lift w t0 s hinv e.fid hb⟩
        · rw [if_neg hc]
          exact hinv.2 f
    · have hstep : updateLoopStep w d (b, s) e = (b, s) := by
        simp [updateLoopStep, hb]
      rw [List.foldl_cons, hstep]
      exact ih b s hinv

theorem updateBlock_UpdInv (w : World) (t0 : Tags) (d : Nat) (s : St)
    (hinv : UpdInv w t0 s) : UpdInv w t0 (updateBlock w d s) := by
  unfold updateBlock
  by_cases hneed : (dirFiles w d).any
      (fun e => blankO (read_album_artist w s.albumArtist e.fid))
  · have hres := updateLoop_UpdInv w t0 d (dirFiles w d) false s hinv
    simp only [hneed, if_true]
    by_cases hfst : ((dirFiles w d).foldl (updateLoopStep w d) (false, s)).1
    · simp only [hfst, if_true]
      exact ⟨hres.1, hres.2⟩
    · simp only [hfst, Bool.false_eq_true, if_false]
      exact hres
  · simp only [hneed, Bool.false_eq_true, if_false]
    exact hinv

theorem updateBlock_shape (w : World) (d : Nat) (s : St) :
    ∃ (recs : List AAWrite) (lineOpt : List OutLine),
      (updateBlock w d s).aaWrites = s.aaWrites ++ recs ∧
      List.Sublist (recs.map AAWrite.fid) ((dirFiles w d).map Entry.fid) ∧
      (∀ x ∈ recs, x.dir = d ∧ x.value = "Various Artists") ∧
      (updateBlock w d s).out = s.out ++ lineOpt ∧
      (∀ o ∈ lineOpt, o = OutLine.updated d (w.dirName d)) ∧
      lineOpt.length ≤ 1 ∧
      (lineOpt ≠ [] → ∃ x ∈ recs, x.ok = true) ∧
      (updateBlock w d s).processed = s.processed ∧
      (updateBlock w d s).rtWrites = s.rtWrites := by
  unfold updateBlock
  by_cases hneed : (dirFiles w d).any
      (fun e => blankO (read_album_artist w s.albumArtist e.fid))
  · obtain ⟨recs, h1, h2, h3, h4, h5, h6, h7⟩ :=
      updateLoop_shape w d (dirFiles w d) false s
    simp only [hneed, if_true]
    by_cases hfst : ((dirFiles w d).foldl (updateLoopStep w d) (false, s)).1
    · refine ⟨recs, [OutLine.updated d (w.dirName d)], ?_, h2, h3, ?_, ?_, ?_, ?_, ?_, ?_⟩
      · simp [hfst, h1]
      · simp [hfst, h4]
      · simp
      · simp
      · intro _
        rcases h7 hfst with hfalse | hex
        · exact absurd hfalse (by simp)
        · exact hex
      · simp [hfst, h5]
      · simp [hfst, h6]
    · refine ⟨recs, [], ?_, h2, h3, ?_, ?_, ?_, ?_, ?_, ?_⟩ <;>
        simp [hfst, h1, h4, h5, h6]
  · refine ⟨[], [], ?_⟩
    simp [hneed]

theorem rtOnlyBlock_spec (w : World) (rt : Option String) (d : Nat) (s : St) :
    (rtOnlyBlock w rt d s).albumArtist = s.albumArtist ∧
    (rtOnlyBlock w rt d s).aaWrites = s.aaWrites ∧
    (rtOnlyBlock w rt d s).processed = s.processed ∧
    (rtOnlyBlock w rt d s).rtWrites = s.rtWrites ++ rtRecs w rt d (dirFiles w d) ∧
    (rtOnlyBlock w rt d s).out = s.out ++
      (if (dirFiles w d).any (fun e => w.writeRTOk e.fid) then
        [OutLine.rtUpdated d (w.dirName d)] else []) := by
  unfold rtOnlyBlock
  obtain ⟨h1, h2, h3, h4, h5, h6⟩ := rtLoop_spec w rt d (dirFiles w d) false s
  by_cases hany : (dirFiles w d).any (fun e => w.writeRTOk e.fid)
  · have hfst : ((dirFiles w d).foldl (rtLoopStep w rt d) (false, s)).1 = true := by
      rw [h6]; simp [hany]
    refine ⟨?_, ?_, ?_, ?_, ?_⟩ <;> simp [hfst, h1, h2, h3, h4, h5, hany]
  · have hfst : ((dirFiles w d).foldl (rtLoopStep w rt d) (false, s)).1 = false := by
      rw [h6]; simp [hany]
    refine ⟨?_, ?_, ?_, ?_, ?_⟩ <;> simp [hfst, h1, h2, h3, h4, h5, hany]

theorem forceBlock_spec (w : World) (fv : String) (rt : Option String) (d : Nat) (s : St) :
    (forceBlock w fv rt d s).aaWrites = s.aaWrites ++ aaRecsF w fv d (dirFiles w d) ∧
    (forceBlock w fv rt d s).rtWrites = s.rtWrites ++
      (if truthyO rt then rtRecs w rt d (dirFiles w d) else []) ∧
    (forceBlock w fv rt d s).processed = s.processed ∧
    (forceBlock w fv rt d s).out = s.out ++
      (if (dirFiles w d).any
          (fun e => w.writeAAOk e.fid || (truthyO rt && w.writeRTOk e.fid)) then
        [OutLine.forceUpdated d (w.dirName d)] else []) := by
  unfold forceBlock
  obtain ⟨h1, h2, h3, h4, h5⟩ := forceLoop_spec w fv rt d (dirFiles w d) false s
  by_cases hany : (dirFiles w d).any
      (fun e => w.writeAAOk e.fid || (truthyO rt && w.writeRTOk e.fid))
  · have hfst : ((dirFiles w d).foldl (forceLoopStep w fv rt d) (false, s)).1 = true := by
      rw [h5]; simp [hany]
    refine ⟨?_, ?_, ?_, ?_⟩ <;> simp [hfst, h1, h2, h3, h4, hany]
  · have hfst : ((dirFiles w d).foldl (forceLoopStep w fv rt d) (false, s)).1 = false := by
      rw [h5]; simp [hany]
    refine ⟨?_, ?_, ?_, ?_⟩ <;> simp [hfst, h1, h2, h3, h4, hany]

/-- Generic fold-invariant principle. -/
theorem foldl_inv {α : Type u} {β : Type v} (P : α → Prop) (f : α → β → α)
    (h : ∀ s e, P s → P (f s e)) :
    ∀ (l : List β) (s : α), P s → P (l.foldl f s) := by
  intro l
  induction l with
  | nil => intro s hs; simpa using hs
  | cons e l ih =>
    intro s hs
    rw [List.foldl_cons]
    exact ih _ (h s e hs)

/-! ### Step equations for `scanStep` -/

theorem scanStep_not_audio (w : World) (a : ScanArgs) (s : St) (e : Entry)
    (h : (e.isFile && is_audio_file e.suffix) = false) :
    scanStep w a s e = s := by
  have hor : (!e.isFile || !is_audio_file e.suffix) = true := by
    cases hf : e.isFile <;> cases ha : is_audio_file e.suffix <;> simp_all
  simp [scanStep, hor]

theorem scanStep_seen (w : World) (a : ScanArgs) (s : St) (e : Entry)
    (h1 : e.isFile = true) (h2 : is_audio_file e.suffix = true)
    (hm : e.parent ∈ s.processed) :
    scanStep w a s e = s := by
  by_cases hg : (a.update_mode || a.force_mode || a.release_type_only) = true <;>
    simp [scanStep, h1, h2, hg, hm]

theorem scanStep_scan_va (w : World) (fv : String) (rt : Option String)
    (s : St) (e : Entry)
    (h1 : e.isFile = true) (h2 : is_audio_file e.suffix = true)
    (hm : e.parent ∉ s.processed)
    (hva : read_album_artist w s.albumArtist e.fid = some "Various Artists") :
    scanStep w ⟨false, false, fv, rt, false⟩ s e = s := by
  simp [scanStep, h1, h2, hm, hva]

theorem scanStep_scan_hit (w : World) (fv : String) (rt : Option String)
    (s : St) (e : Entry)
    (h1 : e.isFile = true) (h2 : is_audio_file e.suffix = true)
    (hm : e.parent ∉ s.processed)
    (hva : read_album_artist w s.albumArtist e.fid ≠ some "Various Artists") :
    scanStep w ⟨false, false, fv, rt, false⟩ s e =
      { s with out := s.out ++ [.scan e.parent (w.dirName e.parent)
                 (displayVal (read_album_artist w s.albumArtist e.fid))],
               processed := e.parent :: s.processed } := by
  simp [scanStep, h1, h2, hm, hva]

theorem scanStep_rto_new (w : World) (a : ScanArgs) (s : St) (e : Entry)
    (hrto : a.release_type_only = true)
    (h1 : e.isFile = true) (h2 : is_audio_file e.suffix = true)
    (hm : e.parent ∉ s.processed) :
    scanStep w a s e =
      { rtOnlyBlock w a.release_type e.parent s with
          processed := e.parent :: (rtOnlyBlock w a.release_type e.parent s).processed } := by
  simp [scanStep, h1, h2, hm, hrto]

theorem scanStep_force_new (w : World) (a : ScanArgs) (s : St) (e : Entry)
    (hrto : a.release_type_only = false) (hf : a.force_mode = true)
    (h1 : e.isFile = true) (h2 : is_audio_file e.suffix = true)
    (hm : e.parent ∉ s.processed) :
    scanStep w a s e =
      { forceBlock w a.force_value a.release_type e.parent s with
          processed := e.parent ::
            (forceBlock w a.force_value a.release_type e.parent s).processed } := by
  simp [scanStep, h1, h2, hm, hrto, hf]

theorem scanStep_update_new (w : World) (a : ScanArgs) (s : St) (e : Entry)
    (hrto : a.release_type_only = false) (hf : a.force_mode = false)
    (hu : a.update_mode = true)
    (h1 : e.isFile = true) (h2 : is_audio_file e.suffix = true)
    (hm : e.parent ∉ s.processed) :
    scanStep w a s e =
      { updateBlock w e.parent s with
          processed := e.parent :: (updateBlock w e.parent s).processed } := by
  simp [scanStep, h1, h2, hm, hrto, hf, hu]

/-! ### The scan-mode master lemma -/

theorem scanFold_filter (w : World) (t0 : Tags) (fv : String) (rt : Option String)
    (d : Nat) (l : List Entry) :
    ∀ s : St, s.albumArtist = t0 →
      ((l.foldl (scanStep w ⟨false, false, fv, rt, false⟩) s).out.filter
          (fun o => o.dir == d))
        = s.out.filter (fun o => o.dir == d) ++
          (if d ∈ s.processed then ([] : List OutLine)
           else ((scanHits w t0 d l).head?.map
             (fun e => OutLine.scan d (w.dirName d)
               (displayVal (read_album_artist w t0 e.fid)))).toList) := by
  induction l with
  | nil =>
    intro s hs
    by_cases hd : d ∈ s.processed <;> simp [hd, scanHits]
  | cons e l ih =>
    intro s hs
    rw [List.foldl_cons]
    by_cases haud : (e.isFile && is_audio_file e.suffix) = true
    · obtain ⟨h1, h2⟩ := Bool.and_eq_true_iff.mp haud
      by_cases hm : e.parent ∈ s.processed
      · rw [scanStep_seen w _ s e h1 h2 hm, ih s hs]
        by_cases hd : d ∈ s.processed
        · simp [hd]
        · have hne : (e.parent == d) = false := by
            simp only [beq_eq_false_iff_ne, ne_eq]
            intro h; exact hd (h ▸ hm)
          have hP : scanHitP w t0 d e = false := by
            simp [scanHitP, hne]
          simp [hd, scanHits, List.filter_cons, hP]
      · by_cases hva : read_album_artist w s.albumArtist e.fid = some "Various Artists"
        · rw [scanStep_scan_va w fv rt s e h1 h2 hm hva, ih s hs]
          have hP : scanHitP w t0 d e = false := by
            rw [← hs]
            simp [scanHitP, hva]
          simp [scanHits, List.filter_cons, hP]
        · rw [scanStep_scan_hit w fv rt s e h1 h2 hm hva]
          have hs' : ({ s with
              out := s.out ++ [OutLine.scan e.parent (w.dirName e.parent)
                (displayVal (read_album_artist w s.albumArtist e.fid))],
              processed := e.parent :: s.processed } : St).albumArtist = t0 := hs
          rw [ih _ hs']
          by_cases he : e.parent = d
          · subst he
            have hP : scanHitP w t0 e.parent e = true := by
              rw [← hs]
              simp [scanHitP, h1, h2, hva]
            simp [hm, scanHits, List.filter_cons, hP, List.filter_append, hs,
              OutLine.dir]
          · have hne : (e.parent == d) = false := by
              simpa using he
            have hP : scanHitP w t0 d e = false := by
              simp [scanHitP, hne]
            by_cases hd : d ∈ s.processed
            · simp [hd, he, List.filter_append, scanHits, List.filter_cons, hP,
                OutLine.dir]
            · have hd' : d ∉ e.parent :: s.processed := by
                simp [hd, Ne.symm he]
              simp [hd, hd', List.filter_append, scanHits, List.filter_cons, hP,
                OutLine.dir, he]
    · have hstep : (e.isFile && is_audio_file e.suffix) = false := by
        simpa using haud
      rw [scanStep_not_audio w _ s e hstep, ih s hs]
      have hP : scanHitP w t0 d e = false := by
        rcases Bool.and_eq_false_iff.mp hstep with h | h <;> simp [scanHitP, h]
      simp [scanHits, List.filter_cons, hP]

theorem scanStep_scan_pure (w : World) (fv : String) (rt : Option String)
    (s : St) (e : Entry) :
    (scanStep w ⟨false, false, fv, rt, false⟩ s e).albumArtist = s.albumArtist ∧
    (scanStep w ⟨false, false, fv, rt, false⟩ s e).releaseType = s.releaseType ∧
    (scanStep w ⟨false, false, fv, rt, false⟩ s e).aaWrites = s.aaWrites ∧
    (scanStep w ⟨false, false, fv, rt, false⟩ s e).rtWrites = s.rtWrites := by
  by_cases haud : (e.isFile && is_audio_file e.suffix) = true
  · obtain ⟨h1, h2⟩ := Bool.and_eq_true_iff.mp haud
    by_cases hm : e.parent ∈ s.processed
    · rw [scanStep_seen w _ s e h1 h2 hm]
      exact ⟨rfl, rfl, rfl, rfl⟩
    · by_cases hva : read_album_artist w s.albumArtist e.fid = some "Various Artists"
      · rw [scanStep_scan_va w fv rt s e h1 h2 hm hva]
        exact ⟨rfl, rfl, rfl, rfl⟩
      · rw [scanStep_scan_hit w fv rt s e h1 h2 hm hva]
        exact ⟨rfl, rfl, rfl, rfl⟩
  · rw [scanStep_not_audio w _ s e (by simpa using haud)]
    exact ⟨rfl, rfl, rfl, rfl⟩

theorem scanRun_pure (w : World) (t0 rt0 : Tags) (fv : String) (rt : Option String) :
    (scan_directory w t0 rt0 ⟨false, false, fv, rt, false⟩).albumArtist = t0 ∧
    (scan_directory w t0 rt0 ⟨false, false, fv, rt, false⟩).releaseType = rt0 ∧
    (scan_directory w t0 rt0 ⟨false, false, fv, rt, false⟩).aaWrites = [] ∧
    (scan_directory w t0 rt0 ⟨false, false, fv, rt, false⟩).rtWrites = [] := by
  have h := foldl_inv
    (fun s : St => s.albumArtist = t0 ∧ s.releaseType = rt0 ∧
      s.aaWrites = [] ∧ s.rtWrites = [])
    (scanStep w ⟨false, false, fv, rt, false⟩)
    (fun s e hs => by
      obtain ⟨p1, p2, p3, p4⟩ := scanStep_scan_pure w fv rt s e
      exact ⟨p1.trans hs.1, p2.trans hs.2.1, p3.trans hs.2.2.1, p4.trans hs.2.2.2⟩)
    w.rglob (initSt t0 rt0) ⟨rfl, rfl, rfl, rfl⟩
  exact h

theorem scanRun_filter (w : World) (t0 rt0 : Tags) (fv : String)
    (rt : Option String) (d : Nat) :
    ((scan_directory w t0 rt0 ⟨false, false, fv, rt, false⟩).out.filter
        (fun o => o.dir == d))
      = ((scanHits w t0 d w.rglob).head?.map
          (fun e => OutLine.scan d (w.dirName d)
            (displayVal (read_album_artist w t0 e.fid)))).toList := by
  have h := scanFold_filter w t0 fv rt d w.rglob (initSt t0 rt0) rfl
  simpa [scan_directory, initSt] using h

/-! ### Concrete scenarios used as counterexamples and witnesses -/

/-- A directory (id 1, name "Album") holding two mp3 files, ids 0 and 1,
with all tag I/O succeeding. -/
def wTwo : World :=
  { rglob := [⟨0, true, ".mp3", 1⟩, ⟨1, true, ".mp3", 1⟩]
    iterdir := fun d => if d = 1 then [⟨0, true, ".mp3", 1⟩, ⟨1, true, ".mp3", 1⟩] else []
    dirName := fun _ => "Album"
    readRaises := fun _ => false
    writeAAOk := fun _ => true
    writeRTOk := fun _ => true }

/-- A directory (id 1, name "Album") holding one mp3 file, id 0, with all
tag I/O succeeding. -/
def wOne : World :=
  { rglob := [⟨0, true, ".mp3", 1⟩]
    iterdir := fun d => if d = 1 then [⟨0, true, ".mp3", 1⟩] else []
    dirName := fun _ => "Album"
    readRaises := fun _ => false
    writeAAOk := fun _ => true
    writeRTOk := fun _ => true }

/-- Like `wOne`, but every Album Artist save fails while release-type saves
succeed. -/
def wOneAAFail : World :=
  { rglob := [⟨0, true, ".mp3", 1⟩]
    iterdir := fun d => if d = 1 then [⟨0, true, ".mp3", 1⟩] else []
    dirName := fun _ => "Album"
    readRaises := fun _ => false
    writeAAOk := fun _ => false
    writeRTOk := fun _ => true }

/-- File 0 tagged `"Various Artists"`, file 1 tagged `"Other"`. -/
def tagsVAThenOther : Tags :=
  fun f => if f = 0 then some "Various Artists" else some "Other"

/-- File 0 tagged `"A"`, file 1 tagged `"B"`. -/
def tagsAB : Tags := fun f => if f = 0 then some "A" else some "B"

/-- No file has an Album Artist. -/
def tagsNone : Tags := fun _ => none

/-- Every file already has the Album Artist `"Existing"`. -/
def tagsX : Tags := fun _ => some "Existing"

/-! ### Claims -/

/-- C1, counterexample: in scan mode over a directory whose first enumerated
file reads `"Various Artists"` and whose second reads `"Other"`, exactly one
line is printed, but its value `"Other"` is read from the second file, not
from the first file of the directory in enumeration order (whose value is
`"Various Artists"`). -/
theorem C1_counterexample :
    (scan_directory wTwo tagsVAThenOther tagsNone
        ⟨false, false, "Various Artists", none, false⟩).out
      = [OutLine.scan 1 "Album" "Other"] ∧
    wTwo.rglob = [⟨0, true, ".mp3", 1⟩, ⟨1, true, ".mp3", 1⟩] ∧
    read_album_artist wTwo tagsVAThenOther 0 = some "Various Artists" ∧
    displayVal (read_album_artist wTwo tagsVAThenOther 0) ≠ "Other" := by
  decide

/-- C1, amended: in scan mode, for every directory with at least one
enumerated audio file whose Album Artist read differs from
`"Various Artists"`, exactly one report line is printed for that directory,
and its value is read from the first such file in enumeration order (not
from the first file of the directory: files reading `"Various Artists"` do
not mark the directory processed). -/
theorem C1_amended_theorem (w : World) (t0 rt0 : Tags) (fv : String)
    (rt : Option String) (d : Nat) (e : Entry)
    (hhead : (scanHits w t0 d w.rglob).head? = some e) :
    ((scan_directory w t0 rt0 ⟨false, false, fv, rt, false⟩).out.filter
        (fun o => o.dir == d))
      = [OutLine.scan d (w.dirName d) (displayVal (read_album_artist w t0 e.fid))] ∧
    e.isFile = true ∧ is_audio_file e.suffix = true ∧ e.parent = d ∧
    read_album_artist w t0 e.fid ≠ some "Various Artists" := by
  have hmem : e ∈ scanHits w t0 d w.rglob := by
    rcases hl : scanHits w t0 d w.rglob with _ | ⟨x, xs⟩
    · rw [hl] at hhead; exact absurd hhead (by simp)
    · rw [hl] at hhead
      simp only [List.head?_cons, Option.some.injEq] at hhead
      rw [hhead]
      exact List.mem_cons_self _ _
  have hP : scanHitP w t0 d e = true := List.of_mem_filter hmem
  have hparts := hP
  unfold scanHitP at hparts
  simp only [Bool.and_eq_true, beq_iff_eq, Bool.not_eq_true', beq_eq_false_iff_ne,
    ne_eq] at hparts
  refine ⟨?_, hparts.1.1.1, hparts.1.1.2, hparts.1.2, hparts.2⟩
  rw [scanRun_filter, hhead]
  rfl

/-- C1, witness for the amended theorem on the counterexample scenario: the
first non-`"Various Artists"` file of directory 1 is file 1, and the single
line printed carries that file's value. -/
theorem C1_amended_witness :
    (scanHits wTwo tagsVAThenOther 1 wTwo.rglob).head?
        = some ⟨1, true, ".mp3", 1⟩ ∧
    (((scan_directory wTwo tagsVAThenOther tagsNone
          ⟨false, false, "Various Artists", none, false⟩).out.filter
        (fun o => o.dir == 1))
      = [OutLine.scan 1 (wTwo.dirName 1)
          (displayVal (read_album_artist wTwo tagsVAThenOther 1))] ∧
      (⟨1, true, ".mp3", 1⟩ : Entry).isFile = true ∧
      is_audio_file (⟨1, true, ".mp3", 1⟩ : Entry).suffix = true ∧
      (⟨1, true, ".mp3", 1⟩ : Entry).parent = 1 ∧
      read_album_artist wTwo tagsVAThenOther (⟨1, true, ".mp3", 1⟩ : Entry).fid
        ≠ some "Various Artists") :=
  ⟨by decide,
   C1_amended_theorem wTwo tagsVAThenOther tagsNone "Various Artists" none 1
     ⟨1, true, ".mp3", 1⟩ (by decide)⟩

/-- C5, counterexample: scan mode over a directory whose two files read
`"A"` and `"B"` prints only `"Album - A"`; the value `"B"`, present on an
enumerated audio file and different from `"Various Artists"`, appears in no
printed line (it is silently not surfaced). -/
theorem C5_counterexample :
    (scan_directory wTwo tagsAB tagsNone
        ⟨false, false, "Various Artists", none, false⟩).out
      = [OutLine.scan 1 "Album" "A"] ∧
    (⟨1, true, ".mp3", 1⟩ : Entry) ∈ wTwo.rglob ∧
    read_album_artist wTwo tagsAB 1 = some "B" ∧
    ("B" : String) ≠ "Various Artists" ∧
    (∀ o ∈ (scan_directory wTwo tagsAB tagsNone
        ⟨false, false, "Various Artists", none, false⟩).out,
      o.scanValue ≠ some "B" ∧ o.render ≠ "Album - B") := by
  decide

/-- C5, amended: in scan mode, every directory containing an enumerated
audio file whose Album Artist read differs from `"Various Artists"` is
surfaced: one line is printed for that directory carrying the value of the
first such file (but other non-`"Various Artists"` values in the directory
are not printed). -/
theorem C5_amended_theorem (w : World) (t0 rt0 : Tags) (fv : String)
    (rt : Option String) (d : Nat)
    (h : scanHits w t0 d w.rglob ≠ []) :
    ∃ e ∈ scanHits w t0 d w.rglob,
      OutLine.scan d (w.dirName d) (displayVal (read_album_artist w t0 e.fid))
        ∈ (scan_directory w t0 rt0 ⟨false, false, fv, rt, false⟩).out ∧
      read_album_artist w t0 e.fid ≠ some "Various Artists" := by
  rcases hl : scanHits w t0 d w.rglob with _ | ⟨e, rest⟩
  · exact absurd hl h
  · refine ⟨e, List.mem_cons_self _ _, ?_, ?_⟩
    · have hf := scanRun_filter w t0 rt0 fv rt d
      rw [hl] at hf
      simp only [List.head?_cons, Option.map_some', Option.toList_some] at hf
      have : OutLine.scan d (w.dirName d)
          (displayVal (read_album_artist w t0 e.fid))
          ∈ (scan_directory w t0 rt0 ⟨false, false, fv, rt, false⟩).out.filter
            (fun o => o.dir == d) := by
        rw [hf]
        exact List.mem_singleton.mpr rfl
      exact List.mem_of_mem_filter this
    · have hmem : e ∈ scanHits w t0 d w.rglob := by
        rw [hl]; exact List.mem_cons_self _ _
      have hP : scanHitP w t0 d e = true := List.of_mem_filter hmem
      unfold scanHitP at hP
      simp only [Bool.and_eq_true, Bool.not_eq_true', beq_eq_false_iff_ne, ne_eq] at hP
      exact hP.2

/-- C5, witness for the amended theorem: on the counterexample scenario the
directory is surfaced through the value `"A"` of its first file. -/
theorem C5_amended_witness :
    scanHits wTwo tagsAB 1 wTwo.rglob ≠ [] ∧
    (∃ e ∈ scanHits wTwo tagsAB 1 wTwo.rglob,
      OutLine.scan 1 (wTwo.dirName 1) (displayVal (read_album_artist wTwo tagsAB e.fid))
        ∈ (scan_directory wTwo tagsAB tagsNone
            ⟨false, false, "Various Artists", none, false⟩).out ∧
      read_album_artist wTwo tagsAB e.fid ≠ some "Various Artists") :=
  ⟨by decide,
   C5_amended_theorem wTwo tagsAB tagsNone "Various Artists" none 1 (by decide)⟩

/-- C9: supplying `--force` with the empty string disables force mode
(`main` tests the truthiness of `args.force`): the dispatched arguments are
exactly those of plain scan mode, so the run performs no writes and leaves
every Album Artist unchanged; when `--release-type` is additionally given a
truthy value, the dispatched arguments are exactly those of
release-type-only mode. -/
theorem C9_theorem (w : World) (t0 rt0 : Tags) (rtv : String) (hrt : rtv ≠ "") :
    mainDispatch ⟨false, some "", none⟩ = mainDispatch ⟨false, none, none⟩ ∧
    mainDispatch ⟨false, some "", none⟩
      = ⟨false, false, "Various Artists", none, false⟩ ∧
    (scan_directory w t0 rt0 (mainDispatch ⟨false, some "", none⟩)).aaWrites = [] ∧
    (scan_directory w t0 rt0 (mainDispatch ⟨false, some "", none⟩)).rtWrites = [] ∧
    (scan_directory w t0 rt0 (mainDispatch ⟨false, some "", none⟩)).albumArtist = t0 ∧
    mainDispatch ⟨false, some "", some rtv⟩
      = ⟨false, false, "Various Artists", some rtv, true⟩ := by
  have hdisp : mainDispatch ⟨false, some "", none⟩
      = (⟨false, false, "Various Artists", none, false⟩ : ScanArgs) := by
    decide
  have hpure := scanRun_pure w t0 rt0 "Various Artists" none
  refine ⟨by decide, hdisp, ?_, ?_, ?_, ?_⟩
  · rw [hdisp]; exact hpure.2.2.1
  · rw [hdisp]; exact hpure.2.2.2
  · rw [hdisp]; exact hpure.1
  · have hne : rtv.isEmpty = false := by
      rcases h : rtv.isEmpty with _ | _
      · rfl
      · exact absurd ((String.isEmpty_iff rtv).mp h) hrt
    have hemp : ("" : String).isEmpty = true := rfl
    simp [mainDispatch, truthyO, truthyS, hne, hemp]

/-- C9, witness: instantiated at the one-directory world with the
release-type value `"compilation"`. -/
theorem C9_witness :
    ("compilation" : String) ≠ "" ∧
    (mainDispatch ⟨false, some "", none⟩ = mainDispatch ⟨false, none, none⟩ ∧
     mainDispatch ⟨false, some "", none⟩
       = ⟨false, false, "Various Artists", none, false⟩ ∧
     (scan_directory wOne tagsAB tagsNone
        (mainDispatch ⟨false, some "", none⟩)).aaWrites = [] ∧
     (scan_directory wOne tagsAB tagsNone
        (mainDispatch ⟨false, some "", none⟩)).rtWrites = [] ∧
     (scan_directory wOne tagsAB tagsNone
        (mainDispatch ⟨false, some "", none⟩)).albumArtist = tagsAB ∧
     mainDispatch ⟨false, some "", some "compilation"⟩
       = ⟨false, false, "Various Artists", some "compilation", true⟩) :=
  ⟨by decide, C9_theorem wOne tagsAB tagsNone "compilation" (by decide)⟩

/-- C6: in release-type-only mode (the `release_type_only` branch is tested
first, so this holds whatever the other flags are), no `set_album_artist`
invocation occurs and every file's Album Artist is left unchanged. -/
theorem C6_theorem (w : World) (t0 rt0 : Tags) (um fm : Bool) (fv : String)
    (rt : Option String) :
    (scan_directory w t0 rt0 ⟨um, fm, fv, rt, true⟩).albumArtist = t0 ∧
    (scan_directory w t0 rt0 ⟨um, fm, fv, rt, true⟩).aaWrites = [] := by
  have h := foldl_inv
    (fun s : St => s.albumArtist = t0 ∧ s.aaWrites = [])
    (scanStep w ⟨um, fm, fv, rt, true⟩)
    (fun s e hs => by
      by_cases haud : (e.isFile && is_audio_file e.suffix) = true
      · obtain ⟨h1, h2⟩ := Bool.and_eq_true_iff.mp haud
        by_cases hm : e.parent ∈ s.processed
        · rw [scanStep_seen w _ s e h1 h2 hm]; exact hs
        · rw [scanStep_rto_new w _ s e rfl h1 h2 hm]
          obtain ⟨b1, b2, _, _, _⟩ := rtOnlyBlock_spec w rt e.parent s
          exact ⟨b1.trans hs.1, b2.trans hs.2⟩
      · rw [scanStep_not_audio w _ s e (by simpa using haud)]; exact hs)
    w.rglob (initSt t0 rt0) ⟨rfl, rfl⟩
  exact h

/-- C2: in update mode, every `set_album_artist` invocation passes the value
`"Various Artists"` and targets a file whose initial Album Artist read is
missing (`None`) or blank after stripping whitespace; files with a non-blank
Album Artist are never written. -/
theorem C2_theorem (w : World) (t0 rt0 : Tags) (fv : String) (rt : Option String)
    (x : AAWrite)
    (hx : x ∈ (scan_directory w t0 rt0 ⟨true, false, fv, rt, false⟩).aaWrites) :
    x.value = "Various Artists" ∧ blankO (read_album_artist w t0 x.fid) = true := by
  have h := foldl_inv (UpdInv w t0)
    (scanStep w ⟨true, false, fv, rt, false⟩)
    (fun s e hs => by
      by_cases haud : (e.isFile && is_audio_file e.suffix) = true
      · obtain ⟨h1, h2⟩ := Bool.and_eq_true_iff.mp haud
        by_cases hm : e.parent ∈ s.processed
        · rw [scanStep_seen w _ s e h1 h2 hm]; exact hs
        · rw [scanStep_update_new w _ s e rfl rfl rfl h1 h2 hm]
          have hub := updateBlock_UpdInv w t0 e.parent s hs
          exact ⟨hub.1, hub.2⟩
      · rw [scanStep_not_audio w _ s e (by simpa using haud)]; exact hs)
    w.rglob (initSt t0 rt0)
    ⟨by intro y hy; exact absurd hy (by simp [initSt]), fun f => Or.inl rfl⟩
  exact h.1 x hx

/-- C2, witness: in the one-file directory with no Album Artist set, the
single recorded write passes `"Various Artists"` to the blank file 0. -/
theorem C2_witness :
    (⟨1, 0, "Various Artists", true⟩ : AAWrite)
      ∈ (scan_directory wOne tagsNone tagsNone
          ⟨true, false, "Various Artists", none, false⟩).aaWrites ∧
    ((⟨1, 0, "Various Artists", true⟩ : AAWrite).value = "Various Artists" ∧
      blankO (read_album_artist wOne tagsNone
        (⟨1, 0, "Various Artists", true⟩ : AAWrite).fid) = true) :=
  ⟨by decide,
   C2_theorem wOne tagsNone tagsNone "Various Artists" none
     ⟨1, 0, "Various Artists", true⟩ (by decide)⟩

/-- The force-mode run invariant: every processed directory has had both
writes attempted on each of its audio files. -/
def ForceInv (w : World) (fv : String) (rt : Option String) (s : St) : Prop :=
  ∀ d ∈ s.processed, ∀ e ∈ dirFiles w d,
    (⟨d, e.fid, fv, w.writeAAOk e.fid⟩ : AAWrite) ∈ s.aaWrites ∧
    (truthyO rt = true → (⟨d, e.fid, rt, w.writeRTOk e.fid⟩ : RTWrite) ∈ s.rtWrites)

/-- C3: in force mode, for every directory in the processed set, a
`set_album_artist` invocation with the force value was made for every audio
file of the directory, unconditionally on the file's current Album Artist;
and when the release-type argument is truthy, a `set_release_type`
invocation was likewise made for every file. -/
theorem C3_theorem (w : World) (t0 rt0 : Tags) (fv : String) (rt : Option String)
    (d : Nat)
    (hd : d ∈ (scan_directory w t0 rt0 ⟨false, true, fv, rt, false⟩).processed)
    (e : Entry) (he : e ∈ dirFiles w d) :
    (⟨d, e.fid, fv, w.writeAAOk e.fid⟩ : AAWrite)
      ∈ (scan_directory w t0 rt0 ⟨false, true, fv, rt, false⟩).aaWrites ∧
    (truthyO rt = true →
      (⟨d, e.fid, rt, w.writeRTOk e.fid⟩ : RTWrite)
        ∈ (scan_directory w t0 rt0 ⟨false, true, fv, rt, false⟩).rtWrites) := by
  have h := foldl_inv (ForceInv w fv rt)
    (scanStep w ⟨false, true, fv, rt, false⟩)
    (fun s e hs => by
      by_cases haud : (e.isFile && is_audio_file e.suffix) = true
      · obtain ⟨h1, h2⟩ := Bool.and_eq_true_iff.mp haud
        by_cases hm : e.parent ∈ s.processed
        · rw [scanStep_seen w _ s e h1 h2 hm]; exact hs
        · rw [scanStep_force_new w _ s e rfl rfl h1 h2 hm]
          obtain ⟨b1, b2, b3, _⟩ := forceBlock_spec w fv rt e.parent s
          intro d' hd' e' he'
          simp only [List.mem_cons, b3] at hd'
          rcases hd' with hd' | hd'
          · subst hd'
            constructor
            · rw [b1]
              refine List.mem_append_right _ ?_
              unfold aaRecsF
              exact List.mem_map.mpr ⟨e', he', rfl⟩
            · intro htr
              rw [b2, if_pos htr]
              refine List.mem_append_right _ ?_
              unfold rtRecs
              exact List.mem_map.mpr ⟨e', he', rfl⟩
          · obtain ⟨m1, m2⟩ := hs d' hd' e' he'
            constructor
            · rw [b1]; exact List.mem_append_left _ m1
            · intro htr
              rw [b2]; exact List.mem_append_left _ (m2 htr)
      · rw [scanStep_not_audio w _ s e (by simpa using haud)]; exact hs)
    w.rglob (initSt t0 rt0)
    (by intro d' hd'; exact absurd hd' (by simp [initSt]))
  exact h d hd e he

/-- C3, witness: force mode with value `"Soundtrack"` and release type
`"compilation"` over a one-file directory whose file already has the Album
Artist `"Existing"`: both writes are recorded for that file. -/
theorem C3_witness :
    1 ∈ (scan_directory wOne tagsX tagsNone
        ⟨false, true, "Soundtrack", some "compilation", false⟩).processed ∧
    (⟨0, true, ".mp3", 1⟩ : Entry) ∈ dirFiles wOne 1 ∧
    ((⟨1, 0, "Soundtrack", wOne.writeAAOk 0⟩ : AAWrite)
        ∈ (scan_directory wOne tagsX tagsNone
            ⟨false, true, "Soundtrack", some "compilation", false⟩).aaWrites ∧
     (truthyO (some "compilation") = true →
       (⟨1, 0, some "compilation", wOne.writeRTOk 0⟩ : RTWrite)
         ∈ (scan_directory wOne tagsX tagsNone
             ⟨false, true, "Soundtrack", some "compilation", false⟩).rtWrites)) :=
  ⟨by decide, by decide,
   C3_theorem wOne tagsX tagsNone "Soundtrack" (some "compilation") 1 (by decide)
     ⟨0, true, ".mp3", 1⟩ (by decide)⟩

/-- The write-mode run invariant for C7: every printed report line is backed
by at least one successful write recorded for the same directory. -/
def SuccInv (s : St) : Prop :=
  ∀ o ∈ s.out,
    (∃ x ∈ s.aaWrites, x.dir = o.dir ∧ x.ok = true) ∨
    (∃ x ∈ s.rtWrites, x.dir = o.dir ∧ x.ok = true)

theorem SuccInv_step (w : World) (a : ScanArgs)
    (hmode : (a.update_mode || a.force_mode || a.release_type_only) = true)
    (s : St) (e : Entry) (hs : SuccInv s) : SuccInv (scanStep w a s e) := by
  by_cases haud : (e.isFile && is_audio_file e.suffix) = true
  · obtain ⟨h1, h2⟩ := Bool.and_eq_true_iff.mp haud
    by_cases hm : e.parent ∈ s.processed
    · rw [scanStep_seen w _ s e h1 h2 hm]; exact hs
    · by_cases hrto : a.release_type_only = true
      · rw [scanStep_rto_new w a s e hrto h1 h2 hm]
        obtain ⟨_, b2, _, b4, b5⟩ := rtOnlyBlock_spec w a.release_type e.parent s
        intro o ho
        simp only [b5] at ho
        rcases List.mem_append.mp ho with ho | ho
        · rcases hs o ho with ⟨x, hx, hxd, hxo⟩ | ⟨x, hx, hxd, hxo⟩
          · exact Or.inl ⟨x, by rw [b2]; exact hx, hxd, hxo⟩
          · exact Or.inr ⟨x, by rw [b4]; exact List.mem_append_left _ hx, hxd, hxo⟩
        · by_cases hany : (dirFiles w e.parent).any (fun f => w.writeRTOk f.fid) = true
          · rw [if_pos hany] at ho
            simp only [List.mem_singleton] at ho
            subst ho
            obtain ⟨f, hf, hok⟩ := List.any_eq_true.mp hany
            refine Or.inr ⟨⟨e.parent, f.fid, a.release_type, w.writeRTOk f.fid⟩,
              ?_, rfl, hok⟩
            rw [b4]
            refine List.mem_append_right _ ?_
            unfold rtRecs
            exact List.mem_map.mpr ⟨f, hf, rfl⟩
          · rw [if_neg (by simpa using hany)] at ho
            exact absurd ho (by simp)
      · by_cases hf : a.force_mode = true
        · rw [scanStep_force_new w a s e (by simpa using hrto) hf h1 h2 hm]
          obtain ⟨b1, b2, _, b4⟩ := forceBlock_spec w a.force_value a.release_type e.parent s
          intro o ho
          simp only [b4] at ho
          rcases List.mem_append.mp ho with ho | ho
          · rcases hs o ho with ⟨x, hx, hxd, hxo⟩ | ⟨x, hx, hxd, hxo⟩
            · exact Or.inl ⟨x, by rw [b1]; exact List.mem_append_left _ hx, hxd, hxo⟩
            · exact Or.inr ⟨x, by rw [b2]; exact List.mem_append_left _ hx, hxd, hxo⟩
          · by_cases hany : (dirFiles w e.parent).any
                (fun f => w.writeAAOk f.fid || (truthyO a.release_type && w.writeRTOk f.fid)) = true
            · rw [if_pos hany] at ho
              simp only [List.mem_singleton] at ho
              subst ho
              obtain ⟨f, hf2, hok⟩ := List.any_eq_true.mp hany
              rcases Bool.or_eq_true_iff.mp hok with hok | hok
              · refine Or.inl ⟨⟨e.parent, f.fid, a.force_value, w.writeAAOk f.fid⟩,
                  ?_, rfl, hok⟩
                rw [b1]
                refine List.mem_append_right _ ?_
                unfold aaRecsF
                exact List.mem_map.mpr ⟨f, hf2, rfl⟩
              · obtain ⟨htr, hok⟩ := Bool.and_eq_true_iff.mp hok
                refine Or.inr ⟨⟨e.parent, f.fid, a.release_type, w.writeRTOk f.fid⟩,
                  ?_, rfl, hok⟩
                rw [b2, if_pos htr]
                refine List.mem_append_right _ ?_
                unfold rtRecs
                exact List.mem_map.mpr ⟨f, hf2, rfl⟩
            · rw [if_neg (by simpa using hany)] at ho
              exact absurd ho (by simp)
        · have hu : a.update_mode = true := by
            rcases Bool.or_eq_true_iff.mp hmode with h | h
            · rcases Bool.or_eq_true_iff.mp h with h | h
              · exact h
              · exact absurd h hf
            · exact absurd h hrto
          rw [scanStep_update_new w a s e (by simpa using hrto) (by simpa using hf)
            hu h1 h2 hm]
          obtain ⟨recs, lineOpt, u1, _, u3, u4, u5, _, u7, _, u9⟩ :=
            updateBlock_shape w e.parent s
          intro o ho
          simp only [u4] at ho
          rcases List.mem_append.mp ho with ho | ho
          · rcases hs o ho with ⟨x, hx, hxd, hxo⟩ | ⟨x, hx, hxd, hxo⟩
            · exact Or.inl ⟨x, by rw [u1]; exact List.mem_append_left _ hx, hxd, hxo⟩
            · exact Or.inr ⟨x, by rw [u9]; exact hx, hxd, hxo⟩
          · have hne : lineOpt ≠ [] := by
              intro hnil; rw [hnil] at ho; exact absurd ho (by simp)
            obtain ⟨x, hx, hok⟩ := u7 hne
            have hxd : x.dir = e.parent := (u3 x hx).1
            have hod : o.dir = e.parent := by
              rw [u5 o ho]; rfl
            refine Or.inl ⟨x, ?_, by rw [hxd, hod], hok⟩
            rw [u1]
            exact List.mem_append_right _ hx
  · rw [scanStep_not_audio w _ s e (by simpa using haud)]; exact hs

/-- C7: in every writing mode, a report line is printed for a directory only
if at least one write in that directory returned success; a directory whose
attempted writes all failed (or that had none) prints nothing. -/
theorem C7_theorem (w : World) (t0 rt0 : Tags) (a : ScanArgs)
    (hmode : (a.update_mode || a.force_mode || a.release_type_only) = true)
    (o : OutLine) (ho : o ∈ (scan_directory w t0 rt0 a).out) :
    (∃ x ∈ (scan_directory w t0 rt0 a).aaWrites, x.dir = o.dir ∧ x.ok = true) ∨
    (∃ x ∈ (scan_directory w t0 rt0 a).rtWrites, x.dir = o.dir ∧ x.ok = true) := by
  have h := foldl_inv SuccInv (scanStep w a)
    (fun s e hs => SuccInv_step w a hmode s e hs)
    w.rglob (initSt t0 rt0)
    (by intro o ho; exact absurd ho (by simp [initSt]))
  exact h o ho

/-- C7, witness: an update run that writes file 0 successfully and prints
`Updated: Album` has that line backed by a successful write for directory 1. -/
theorem C7_witness :
    ((⟨true, false, "Various Artists", none, false⟩ : ScanArgs).update_mode ||
      (⟨true, false, "Various Artists", none, false⟩ : ScanArgs).force_mode ||
      (⟨true, false, "Various Artists", none, false⟩ : ScanArgs).release_type_only) = true ∧
    OutLine.updated 1 "Album"
      ∈ (scan_directory wOne tagsNone tagsNone
          ⟨true, false, "Various Artists", none, false⟩).out ∧
    ((∃ x ∈ (scan_directory wOne tagsNone tagsNone
          ⟨true, false, "Various Artists", none, false⟩).aaWrites,
        x.dir = (OutLine.updated 1 "Album").dir ∧ x.ok = true) ∨
     (∃ x ∈ (scan_directory wOne tagsNone tagsNone
          ⟨true, false, "Various Artists", none, false⟩).rtWrites,
        x.dir = (OutLine.updated 1 "Album").dir ∧ x.ok = true)) :=
  ⟨by decide, by decide,
   C7_theorem wOne tagsNone tagsNone ⟨true, false, "Various Artists", none, false⟩
     (by decide) (OutLine.updated 1 "Album") (by decide)⟩

/-- The force-mode run invariant for C10. -/
def RTSuccInv (w : World) (s : St) : Prop :=
  ∀ d ∈ s.processed,
    (∃ e ∈ dirFiles w d, w.writeRTOk e.fid = true) →
    OutLine.forceUpdated d (w.dirName d) ∈ s.out

/-- C10: in force mode with a truthy release-type value, a directory is
reported `Force Updated` whenever the release-type write succeeded on at
least one of its files — per-file success is the disjunction of the Album
Artist and release-type write results, so this holds even when every Album
Artist write failed. -/
theorem C10_theorem (w : World) (t0 rt0 : Tags) (fv : String) (rtv : String)
    (hrtv : truthyO (some rtv) = true) (d : Nat)
    (hd : d ∈ (scan_directory w t0 rt0 ⟨false, true, fv, some rtv, false⟩).processed)
    (hsucc : ∃ e ∈ dirFiles w d, w.writeRTOk e.fid = true) :
    OutLine.forceUpdated d (w.dirName d)
      ∈ (scan_directory w t0 rt0 ⟨false, true, fv, some rtv, false⟩).out := by
  have h := foldl_inv (RTSuccInv w)
    (scanStep w ⟨false, true, fv, some rtv, false⟩)
    (fun s e hs => by
      by_cases haud : (e.isFile && is_audio_file e.suffix) = true
      · obtain ⟨h1, h2⟩ := Bool.and_eq_true_iff.mp haud
        by_cases hm : e.parent ∈ s.processed
        · rw [scanStep_seen w _ s e h1 h2 hm]; exact hs
        · rw [scanStep_force_new w _ s e rfl rfl h1 h2 hm]
          obtain ⟨_, _, b3, b4⟩ := forceBlock_spec w fv (some rtv) e.parent s
          intro d' hd' hex
          simp only [List.mem_cons, b3] at hd'
          rcases hd' with hd' | hd'
          · subst hd'
            obtain ⟨f, hf, hok⟩ := hex
            have hany : (dirFiles w e.parent).any
                (fun g => w.writeAAOk g.fid ||
                  (truthyO (some rtv) && w.writeRTOk g.fid)) = true := by
              refine List.any_eq_true.mpr ⟨f, hf, ?_⟩
              rw [hrtv, hok]
              simp
            rw [b4, if_pos hany]
            simp
          · have := hs d' hd' hex
            rw [b4]
            exact List.mem_append_left _ this
      · rw [scanStep_not_audio w _ s e (by simpa using haud)]; exact hs)
    w.rglob (initSt t0 rt0)
    (by intro d' hd'; exact absurd hd' (by simp [initSt]))
  exact h d hd hsucc

/-- C10, witness: in a world where every Album Artist save fails but the
release-type save succeeds, the directory is still reported
`Force Updated: Album`. -/
theorem C10_witness :
    truthyO (some "compilation") = true ∧
    1 ∈ (scan_directory wOneAAFail tagsX tagsNone
        ⟨false, true, "Soundtrack", some "compilation", false⟩).processed ∧
    (∃ e ∈ dirFiles wOneAAFail 1, wOneAAFail.writeRTOk e.fid = true) ∧
    OutLine.forceUpdated 1 (wOneAAFail.dirName 1)
      ∈ (scan_directory wOneAAFail tagsX tagsNone
          ⟨false, true, "Soundtrack", some "compilation", false⟩).out :=
  ⟨by decide, by decide, by decide,
   C10_theorem wOneAAFail tagsX tagsNone "Soundtrack" "compilation" (by decide) 1
     (by decide) (by decide)⟩

/-- C8: any exception raised while reading a file's Album Artist is caught
inside `get_album_artist`: the function returns (it never propagates the
exception, so a per-file read error cannot terminate the run), the read
result is `None`, and the single diagnostic line written to standard error
contains the file path. -/
theorem C8_theorem (path msg : String) :
    get_album_artist path (.raises msg)
      = (none, ["Error reading " ++ path ++ ": " ++ msg]) := rfl

/-! ### Counting machinery for C4 -/

theorem nodup_filter_beq_length_le_one (l : List Nat) (hnd : l.Nodup) (f : Nat) :
    (l.filter (fun n => n == f)).length ≤ 1 := by
  induction l with
  | nil => simp
  | cons a l ih =>
    rw [List.filter_cons]
    by_cases ha : (a == f) = true
    · rw [if_pos ha]
      have haf : a = f := by simpa using ha
      have hnotin : a ∉ l := (List.nodup_cons.mp hnd).1
      have hfl : l.filter (fun n => n == f) = [] := by
        rcases hres : l.filter (fun n => n == f) with _ | ⟨x, xs⟩
        · rfl
        · have hx : x ∈ l.filter (fun n => n == f) := by
            rw [hres]; exact List.mem_cons_self _ _
          have hxl : x ∈ l := List.mem_of_mem_filter hx
          have hxf : x = f := by simpa using List.of_mem_filter hx
          have : a ∈ l := by rw [haf, ← hxf]; exact hxl
          exact absurd this hnotin
      simp [hfl]
    · rw [if_neg ha]
      exact ih (List.nodup_cons.mp hnd).2

theorem length_filter_fid_le_one {A : Type} (fidf : A → Nat) (recs : List A)
    (fids : List Nat) (hsub : List.Sublist (recs.map fidf) fids)
    (hnd : fids.Nodup) (f : Nat) :
    (recs.filter (fun x => fidf x == f)).length ≤ 1 := by
  have h1 : (recs.filter (fun x => fidf x == f)).length
      = List.countP (fun n => n == f) (recs.map fidf) := by
    rw [List.countP_map]
    rw [← List.countP_eq_length_filter]
    rfl
  have h2 : List.countP (fun n => n == f) (recs.map fidf)
      ≤ List.countP (fun n => n == f) fids :=
    hsub.countP_le _
  have h3 : List.countP (fun n => n == f) fids
      = (fids.filter (fun n => n == f)).length :=
    List.countP_eq_length_filter _ _
  rw [h1]
  exact le_trans h2 (h3 ▸ nodup_filter_beq_length_le_one fids hnd f)

/-- Extending one trace by the records of a newly processed directory keeps
each file written at most once. -/
theorem trace_parts {A : Type} (dirf fidf : A → Nat)
    (w : World) (hwf : w.WF) (old new : List A)
    (procOld : List Nat) (d : Nat) (hd : d ∉ procOld)
    (hold2 : ∀ x ∈ old, dirf x ∈ procOld ∧
      fidf x ∈ (w.iterdir (dirf x)).map Entry.fid)
    (hold3 : ∀ f, (old.filter (fun x => fidf x == f)).length ≤ 1)
    (hnewd : ∀ x ∈ new, dirf x = d)
    (hnews : List.Sublist (new.map fidf) ((dirFiles w d).map Entry.fid)) :
    (∀ x ∈ old ++ new, dirf x ∈ d :: procOld ∧
      fidf x ∈ (w.iterdir (dirf x)).map Entry.fid) ∧
    (∀ f, ((old ++ new).filter (fun x => fidf x == f)).length ≤ 1) := by
  have hdirsub : List.Sublist ((dirFiles w d).map Entry.fid)
      ((w.iterdir d).map Entry.fid) :=
    (List.filter_sublist _).map Entry.fid
  constructor
  · intro x hx
    rcases List.mem_append.mp hx with hx | hx
    · obtain ⟨ha, hb⟩ := hold2 x hx
      exact ⟨List.mem_cons_of_mem _ ha, hb⟩
    · have hxd : dirf x = d := hnewd x hx
      have hxf : fidf x ∈ (dirFiles w d).map Entry.fid :=
        hnews.subset (List.mem_map.mpr ⟨x, hx, rfl⟩)
      refine ⟨hxd ▸ List.mem_cons_self _ _, ?_⟩
      rw [hxd]
      exact hdirsub.subset hxf
  · intro f
    rw [List.filter_append, List.length_append]
    have hnd : ((dirFiles w d).map Entry.fid).Nodup :=
      (hwf.1 d).sublist hdirsub
    have hln : (new.filter (fun x => fidf x == f)).length ≤ 1 :=
      length_filter_fid_le_one fidf new _ hnews hnd f
    have hlo : (old.filter (fun x => fidf x == f)).length ≤ 1 := hold3 f
    by_cases hzero : (old.filter (fun x => fidf x == f)).length = 0
    · omega
    · have hpos : 0 < (old.filter (fun x => fidf x == f)).length := by omega
      obtain ⟨x, hx⟩ := List.exists_mem_of_length_pos hpos
      have hxo : x ∈ old := List.mem_of_mem_filter hx
      have hxf : fidf x = f := by simpa using List.of_mem_filter hx
      obtain ⟨hxp, hxm⟩ := hold2 x hxo
      have hnzero : (new.filter (fun y => fidf y == f)).length = 0 := by
        by_contra hnz
        have hnpos : 0 < (new.filter (fun y => fidf y == f)).length := by omega
        obtain ⟨y, hy⟩ := List.exists_mem_of_length_pos hnpos
        have hyn : y ∈ new := List.mem_of_mem_filter hy
        have hyf : fidf y = f := by simpa using List.of_mem_filter hy
        have hym : fidf y ∈ (w.iterdir d).map Entry.fid :=
          hdirsub.subset (hnews.subset (List.mem_map.mpr ⟨y, hyn, rfl⟩))
        obtain ⟨e1, he1, he1f⟩ := List.mem_map.mp hxm
        obtain ⟨e2, he2, he2f⟩ := List.mem_map.mp hym
        have heq : dirf x = d :=
          hwf.2 (dirf x) d e1 e2 he1 he2 (by rw [he1f, he2f, hxf, hyf])
        exact hd (heq ▸ hxp)
      omega

/-- The C4 run invariant: at most one report line per directory, and every
recorded write is keyed to a processed directory containing that file, with
at most one write of each kind per file. -/
def TraceInv (w : World) (s : St) : Prop :=
  (∀ d, (s.out.filter (fun o => o.dir == d)).length ≤ 1 ∧
    ((s.out.filter (fun o => o.dir == d)) ≠ [] → d ∈ s.processed)) ∧
  (∀ x ∈ s.aaWrites, x.dir ∈ s.processed ∧
    x.fid ∈ (w.iterdir x.dir).map Entry.fid) ∧
  (∀ f, (s.aaWrites.filter (fun x => x.fid == f)).length ≤ 1) ∧
  (∀ x ∈ s.rtWrites, x.dir ∈ s.processed ∧
    x.fid ∈ (w.iterdir x.dir).map Entry.fid) ∧
  (∀ f, (s.rtWrites.filter (fun x => x.fid == f)).length ≤ 1)

/-- One step of any mode preserves `TraceInv` when it processes a new
directory `d`, appending at most one line (tagged `d`) and per-file-unique
write records for files of `d`. -/
theorem TraceInv_extend (w : World) (hwf : w.WF) (s s' : St) (d : Nat)
    (hd : d ∉ s.processed)
    (lineOpt : List OutLine) (aaNew : List AAWrite) (rtNew : List RTWrite)
    (hline : lineOpt.length ≤ 1) (hlined : ∀ o ∈ lineOpt, o.dir = d)
    (haad : ∀ x ∈ aaNew, x.dir = d)
    (haas : List.Sublist (aaNew.map AAWrite.fid) ((dirFiles w d).map Entry.fid))
    (hrtd : ∀ x ∈ rtNew, x.dir = d)
    (hrts : List.Sublist (rtNew.map RTWrite.fid) ((dirFiles w d).map Entry.fid))
    (hout : s'.out = s.out ++ lineOpt)
    (haa : s'.aaWrites = s.aaWrites ++ aaNew)
    (hrt : s'.rtWrites = s.rtWrites ++ rtNew)
    (hproc : s'.processed = d :: s.processed)
    (h : TraceInv w s) : TraceInv w s' := by
  obtain ⟨h1, h2, h3, h4, h5⟩ := h
  have haaparts := trace_parts AAWrite.dir AAWrite.fid w hwf s.aaWrites aaNew
    s.processed d hd h2 h3 haad haas
  have hrtparts := trace_parts RTWrite.dir RTWrite.fid w hwf s.rtWrites rtNew
    s.processed d hd h4 h5 hrtd hrts
  refine ⟨?_, ?_, ?_, ?_, ?_⟩
  · intro d'
    rw [hout, List.filter_append, hproc]
    by_cases hdd : d' = d
    · subst hdd
      have hfo : s.out.filter (fun o => o.dir == d') = [] := by
        by_contra hne
        exact hd ((h1 d').2 hne)
      rw [hfo, List.nil_append]
      constructor
      · exact le_trans (List.length_filter_le _ _) hline
      · intro _
        exact List.mem_cons_self _ _
    · have hfl : lineOpt.filter (fun o => o.dir == d') = [] := by
        rw [List.filter_eq_nil_iff]
        intro o ho
        simp only [hlined o ho, beq_iff_eq]
        exact fun hh => hdd hh.symm
      rw [hfl, List.append_nil]
      exact ⟨(h1 d').1, fun hne => List.mem_cons_of_mem _ ((h1 d').2 hne)⟩
  · intro x hx
    rw [haa] at hx
    have := haaparts.1 x hx
    rw [hproc]
    exact this
  · intro f
    rw [haa]
    exact haaparts.2 f
  · intro x hx
    rw [hrt] at hx
    have := hrtparts.1 x hx
    rw [hproc]
    exact this
  · intro f
    rw [hrt]
    exact hrtparts.2 f

theorem TraceInv_step (w : World) (hwf : w.WF) (a : ScanArgs) (s : St)
    (e : Entry) (h : TraceInv w s) : TraceInv w (scanStep w a s e) := by
  by_cases haud : (e.isFile && is_audio_file e.suffix) = true
  · obtain ⟨h1, h2⟩ := Bool.and_eq_true_iff.mp haud
    by_cases hm : e.parent ∈ s.processed
    · rw [scanStep_seen w _ s e h1 h2 hm]; exact h
    · obtain ⟨um, fm, fv, rt, rto⟩ := a
      cases rto with
      | true =>
        rw [scanStep_rto_new w _ s e rfl h1 h2 hm]
        obtain ⟨_, b2, b3, b4, b5⟩ := rtOnlyBlock_spec w rt e.parent s
        refine TraceInv_extend w hwf s _ e.parent hm
          (if (dirFiles w e.parent).any (fun f => w.writeRTOk f.fid) then
            [OutLine.rtUpdated e.parent (w.dirName e.parent)] else [])
          [] (rtRecs w rt e.parent (dirFiles w e.parent))
          ?_ ?_ ?_ ?_ ?_ ?_ ?_ ?_ ?_ ?_ h
        · split <;> simp
        · intro o ho
          split at ho
          · simp only [List.mem_singleton] at ho
            rw [ho]; rfl
          · exact absurd ho (by simp)
        · intro x hx; exact absurd hx (by simp)
        · simp
        · intro x hx
          unfold rtRecs at hx
          obtain ⟨f, _, hf⟩ := List.mem_map.mp hx
          rw [← hf]
        · unfold rtRecs
          rw [List.map_map]
          exact List.Sublist.refl _
        · exact b5
        · simpa using b2
        · exact b4
        · show e.parent :: (rtOnlyBlock w rt e.parent s).processed
            = e.parent :: s.processed
          rw [b3]
      | false =>
        cases fm with
        | true =>
          rw [scanStep_force_new w _ s e rfl rfl h1 h2 hm]
          obtain ⟨b1, b2, b3, b4⟩ := forceBlock_spec w fv rt e.parent s
          refine TraceInv_extend w hwf s _ e.parent hm
            (if (dirFiles w e.parent).any
                (fun f => w.writeAAOk f.fid || (truthyO rt && w.writeRTOk f.fid)) then
              [OutLine.forceUpdated e.parent (w.dirName e.parent)] else [])
            (aaRecsF w fv e.parent (dirFiles w e.parent))
            (if truthyO rt then rtRecs w rt e.parent (dirFiles w e.parent) else [])
            ?_ ?_ ?_ ?_ ?_ ?_ ?_ ?_ ?_ ?_ h
          · split <;> simp
          · intro o ho
            split at ho
            · simp only [List.mem_singleton] at ho
              rw [ho]; rfl
            · exact absurd ho (by simp)
          · intro x hx
            unfold aaRecsF at hx
            obtain ⟨f, _, hf⟩ := List.mem_map.mp hx
            rw [← hf]
          · unfold aaRecsF
            rw [List.map_map]
            exact List.Sublist.refl _
          · intro x hx
            split at hx
            · unfold rtRecs at hx
              obtain ⟨f, _, hf⟩ := List.mem_map.mp hx
              rw [← hf]
            · exact absurd hx (by simp)
          · split
            · unfold rtRecs
              rw [List.map_map]
              exact List.Sublist.refl _
            · exact List.nil_sublist _
          · exact b4
          · simpa using b1
          · simpa using b2
          · show e.parent :: (forceBlock w fv rt e.parent s).processed
              = e.parent :: s.processed
            rw [b3]
        | false =>
          cases um with
          | true =>
            rw [scanStep_update_new w _ s e rfl rfl rfl h1 h2 hm]
            obtain ⟨recs, lineOpt, u1, u2, u3, u4, u5, u6, _, u8, u9⟩ :=
              updateBlock_shape w e.parent s
            refine TraceInv_extend w hwf s _ e.parent hm lineOpt recs [] u6
              ?_ ?_ ?_ ?_ ?_ ?_ ?_ ?_ ?_ h
            · intro o ho
              rw [u5 o ho]; rfl
            · intro x hx
              exact (u3 x hx).1
            · exact u2
            · intro x hx; exact absurd hx (by simp)
            · simp
            · exact u4
            · exact u1
            · simpa using u9
            · show e.parent :: (updateBlock w e.parent s).processed
                = e.parent :: s.processed
              rw [u8]
          | false =>
            by_cases hva : read_album_artist w s.albumArtist e.fid
                = some "Various Artists"
            · rw [scanStep_scan_va w fv rt s e h1 h2 hm hva]; exact h
            · rw [scanStep_scan_hit w fv rt s e h1 h2 hm hva]
              refine TraceInv_extend w hwf s _ e.parent hm
                [OutLine.scan e.parent (w.dirName e.parent)
                  (displayVal (read_album_artist w s.albumArtist e.fid))]
                [] [] ?_ ?_ ?_ ?_ ?_ ?_ ?_ ?_ ?_ ?_ h
              · simp
              · intro o ho
                simp only [List.mem_singleton] at ho
                rw [ho]; rfl
              · intro x hx; exact absurd hx (by simp)
              · simp
              · intro x hx; exact absurd hx (by simp)
              · simp
              · rfl
              · simp
              · simp
              · rfl
  · rw [scanStep_not_audio w _ s e (by simpa using haud)]; exact h

/-- C4: in every mode, at most one report line is printed per directory, and
(in a well-formed filesystem) each file receives at most one Album Artist
write and at most one release-type write per run — the processed-directory
set ensures a directory's files are processed at most once. -/
theorem C4_theorem (w : World) (t0 rt0 : Tags) (a : ScanArgs) (hwf : w.WF) :
    (∀ d, ((scan_directory w t0 rt0 a).out.filter
        (fun o => o.dir == d)).length ≤ 1) ∧
    (∀ f, ((scan_directory w t0 rt0 a).aaWrites.filter
        (fun x => x.fid == f)).length ≤ 1) ∧
    (∀ f, ((scan_directory w t0 rt0 a).rtWrites.filter
        (fun x => x.fid == f)).length ≤ 1) := by
  have h := foldl_inv (TraceInv w) (scanStep w a)
    (fun s e hs => TraceInv_step w hwf a s e hs)
    w.rglob (initSt t0 rt0)
    (by
      refine ⟨fun d => ⟨by simp [initSt], fun hne => ?_⟩, ?_, ?_, ?_, ?_⟩
      · exact absurd (by simp [initSt]) hne
      · intro x hx; exact absurd hx (by simp [initSt])
      · intro f; simp [initSt]
      · intro x hx; exact absurd hx (by simp [initSt])
      · intro f; simp [initSt])
  exact ⟨fun d => (h.1 d).1, h.2.2.1, h.2.2.2.2⟩

/-- C4, witness: on the two-file directory with a well-formed listing, an
update run prints one line and writes each file once. -/
theorem C4_witness :
    wTwo.WF ∧
    ((∀ d, ((scan_directory wTwo tagsNone tagsNone
          ⟨true, false, "Various Artists", none, false⟩).out.filter
        (fun o => o.dir == d)).length ≤ 1) ∧
     (∀ f, ((scan_directory wTwo tagsNone tagsNone
          ⟨true, false, "Various Artists", none, false⟩).aaWrites.filter
        (fun x => x.fid == f)).length ≤ 1) ∧
     (∀ f, ((scan_directory wTwo tagsNone tagsNone
          ⟨true, false, "Various Artists", none, false⟩).rtWrites.filter
        (fun x => x.fid == f)).length ≤ 1)) :=
  ⟨⟨by
      intro d
      by_cases hd : d = 1 <;> simp [wTwo, hd],
    by
      intro d d' e e' h1 h2 h3
      by_cases hd : d = 1 <;> by_cases hd' : d' = 1 <;>
        simp [wTwo, hd, hd'] at h1 h2 ⊢⟩,
   C4_theorem wTwo tagsNone tagsNone ⟨true, false, "Various Artists", none, false⟩
     ⟨by
        intro d
        by_cases hd : d = 1 <;> simp [wTwo, hd],
      by
        intro d d' e e' h1 h2 h3
        by_cases hd : d = 1 <;> by_cases hd' : d' = 1 <;>
          simp [wTwo, hd, hd'] at h1 h2 ⊢⟩⟩

end AudioScanner
